import Mathlib

/-!
Verification of the referral/access bot (`bot.py`, `database.py`).

The SQLite database is embedded as two lists of records (rows in insertion
order, as SQLite returns them here); each `async` database function from
`database.py` becomes a pure function on that state, and each handler from
`bot.py` becomes a pure function that returns the new state together with the
list of outbound transport effects it performed.  The configuration constants
imported from `config.py` (which only holds deployment constants:
`CHANNEL_ID`, `GROUP_ID`, `REQUIRED_INVITES`) are parameters, and fallible
transport calls (`create_chat_invite_link`, `send_message`) are driven by
boolean oracles saying whether the call succeeds.
-/

namespace Referalochka

/-- A row of the `users` table (`database.py`, `init_db`).  `invite_link` is
the persistent personal invite URL; the code only ever inserts it non-NULL. -/
structure UserRow where
  user_id : Int
  username : String
  full_name : String
  invite_link : String
  invited_count : Nat
  completed : Bool
  created_at : String
  deriving Repr, DecidableEq

/-- A row of the `referrals` table (`database.py`, `init_db`).  The SQL
`UNIQUE(referrer_id, referred_id)` constraint is reflected in `add_referral`. -/
structure ReferralRow where
  referrer_id : Int
  referred_id : Int
  joined_at : String
  deriving Repr, DecidableEq

/-- The whole database state. -/
structure DB where
  users : List UserRow
  referrals : List ReferralRow
  deriving Repr, DecidableEq

/-- The state `init_db` leaves a fresh database in: both tables empty. -/
def initDB : DB := ⟨[], []⟩

/-- Embeds `database.get_user`: `SELECT * FROM users WHERE user_id = ?`, first row. -/
def get_user (uid : Int) (db : DB) : Option UserRow :=
  db.users.find? (fun u => u.user_id == uid)

/-- Embeds `database.get_user_by_invite_link`:
`SELECT * FROM users WHERE invite_link = ?`, first row. -/
def get_user_by_invite_link (link : String) (db : DB) : Option UserRow :=
  db.users.find? (fun u => u.invite_link == link)

/-- Embeds `database.create_user`: `INSERT OR IGNORE INTO users ...`.  The insert is
ignored when it would violate the `user_id` primary key or the
`invite_link UNIQUE` constraint; otherwise the new row is appended with
`invited_count = 0` and `completed = 0` (column defaults). -/
def create_user (uid : Int) (username full_name link now : String) (db : DB) : DB :=
  if db.users.any (fun u => u.user_id == uid || u.invite_link == link) then db
  else { db with users := db.users ++ [⟨uid, username, full_name, link, 0, false, now⟩] }

/-- The row update performed by `increment_invited_count`'s SQL `UPDATE`. -/
def bumpCount (uid : Int) (u : UserRow) : UserRow :=
  if u.user_id == uid then { u with invited_count := u.invited_count + 1 } else u

/-- Embeds `database.increment_invited_count`: `UPDATE users SET invited_count =
invited_count + 1 WHERE user_id = ?`, then re-`SELECT` the counter, returning
`row[0] if row else 0`. -/
def increment_invited_count (uid : Int) (db : DB) : DB × Nat :=
  let db' : DB := { db with users := db.users.map (bumpCount uid) }
  (db', match get_user uid db' with
        | some u => u.invited_count
        | none => 0)

/-- The row update performed by `mark_completed`'s conditional SQL `UPDATE`. -/
def completeRow (uid : Int) (u : UserRow) : UserRow :=
  if u.user_id == uid && !u.completed then { u with completed := true } else u

/-- Embeds `database.mark_completed`: `UPDATE users SET completed = 1 WHERE
user_id = ? AND completed = 0`; returns `rowcount > 0`. -/
def mark_completed (uid : Int) (db : DB) : DB × Bool :=
  (({ db with users := db.users.map (completeRow uid) } : DB),
    (db.users.filter (fun u => u.user_id == uid && !u.completed)).length > 0)

/-- Embeds `database.is_referral_counted`: `SELECT 1 FROM referrals WHERE
referrer_id = ? AND referred_id = ?` is non-empty. -/
def is_referral_counted (referrer_id referred_id : Int) (db : DB) : Bool :=
  db.referrals.any (fun e => e.referrer_id == referrer_id && e.referred_id == referred_id)

/-- Embeds `database.add_referral`: `INSERT INTO referrals ...`; the
`UNIQUE(referrer_id, referred_id)` constraint raises `IntegrityError` (caught,
returning `False`) exactly when a row for the pair already exists. -/
def add_referral (referrer_id referred_id : Int) (now : String) (db : DB) : DB × Bool :=
  if is_referral_counted referrer_id referred_id db then (db, false)
  else ({ db with referrals := db.referrals ++ [⟨referrer_id, referred_id, now⟩] }, true)

/-! ## The bot layer (`bot.py`) -/

/-- The constants imported from `config.py`. -/
structure Config where
  channel_id : Int
  group_id : Int
  required_invites : Nat
  deriving Repr, DecidableEq

/-- Statuses from `aiogram.enums.ChatMemberStatus`, as far as the handler inspects it. -/
inductive MemberStatus where
  | creator | administrator | member | restricted | left | kicked
  deriving Repr, DecidableEq

/-- The fields of an `aiogram.types.ChatMemberUpdated` event that
`on_chat_member_updated` reads: the chat, the old and new status, the invite
link the update carries (if any), and the id of the affected user
(`event.new_chat_member.user.id`). -/
structure ChatMemberEvent where
  chat_id : Int
  old_status : MemberStatus
  new_status : MemberStatus
  invite_link : Option String
  new_member_id : Int
  deriving Repr, DecidableEq

/-- Outbound transport calls the handlers perform, in order. -/
inductive Effect where
  /-- Call `bot.send_message`: progress notification to the referrer. -/
  | progressMsg (chat_id : Int) (count : Nat)
  /-- Call `bot.create_chat_invite_link` for `GROUP_ID` with `member_limit=1`. -/
  | createGroupInvite (user_id : Int)
  /-- Call `bot.send_message` delivering the reward group link. -/
  | grantMsg (user_id : Int)
  /-- Call `logger.error` on a caught exception. -/
  | logError
  /-- Call `callback.message.answer` with the personal channel link. -/
  | replyLink (user_id : Int) (link : String)
  /-- Call `callback.answer` with an error alert ("Бот не админ в канале!"). -/
  | errorAlert (user_id : Int)
  deriving Repr, DecidableEq

/-- Embeds `bot._grant_group_access`.  `inviteOk` / `sendOk` say whether the two
transport calls inside the `try` block succeed; an exception is caught and
logged, after which the function returns normally. -/
def grant_group_access (inviteOk sendOk : Bool) (uid : Int) (db : DB) :
    DB × List Effect :=
  match get_user uid db with
  | none => (db, [])
  | some u =>
    if u.completed then (db, [])
    else
      let r := mark_completed uid db
      if r.2 then
        if inviteOk then
          if sendOk then (r.1, [.createGroupInvite uid, .grantMsg uid])
          else (r.1, [.createGroupInvite uid, .logError])
        else (r.1, [.logError])
      else (r.1, [])

/-- Embeds `bot.on_chat_member_updated`: credits a referral on a join into the
monitored channel via a registered personal invite link, then either reports
progress or grants group access once `REQUIRED_INVITES` is reached. -/
def on_chat_member_updated (cfg : Config) (inviteOk sendOk : Bool) (now : String)
    (ev : ChatMemberEvent) (db : DB) : DB × List Effect :=
  if ev.chat_id ≠ cfg.channel_id then (db, [])
  else if (ev.old_status = .left ∨ ev.old_status = .kicked) ∧
      ev.new_status = .member then
    match ev.invite_link with
    | none => (db, [])
    | some used_url =>
      match get_user_by_invite_link used_url db with
      | none => (db, [])
      | some referrer =>
        if ev.new_member_id = referrer.user_id then (db, [])
        else if is_referral_counted referrer.user_id ev.new_member_id db then (db, [])
        else
          let db1 := (add_referral referrer.user_id ev.new_member_id now db).1
          let r2 := increment_invited_count referrer.user_id db1
          if r2.2 < cfg.required_invites then
            (r2.1, [.progressMsg referrer.user_id r2.2])
          else
            grant_group_access inviteOk sendOk referrer.user_id r2.1
  else (db, [])

/-- Embeds `bot.handle_get_link`.  `linkOk` says whether `create_chat_invite_link`
for the channel succeeds, `freshLink` is the URL it would return; on failure
the exception is caught, logged and answered with an alert. -/
def handle_get_link (linkOk : Bool) (freshLink now : String) (uid : Int)
    (username full_name : String) (db : DB) : DB × List Effect :=
  match get_user uid db with
  | some u => (db, [.replyLink uid u.invite_link])
  | none =>
    if linkOk then
      let db' := create_user uid username full_name freshLink now db
      (db', [.replyLink uid freshLink])
    else (db, [.errorAlert uid])

/-- One externally triggered operation against the bot: a membership event or
a "get link" button press (the handlers that mutate state). -/
inductive Op where
  | memberEvent (inviteOk sendOk : Bool) (now : String) (ev : ChatMemberEvent)
  | getLink (linkOk : Bool) (freshLink now : String) (uid : Int)
      (username full_name : String)
  deriving Repr

/-- Apply one operation. -/
def applyOp (cfg : Config) (op : Op) (db : DB) : DB × List Effect :=
  match op with
  | .memberEvent inviteOk sendOk now ev =>
      on_chat_member_updated cfg inviteOk sendOk now ev db
  | .getLink linkOk freshLink now uid username full_name =>
      handle_get_link linkOk freshLink now uid username full_name db

/-- Run a sequence of operations, keeping only the state. -/
def runOps (cfg : Config) (ops : List Op) (db : DB) : DB :=
  ops.foldl (fun d op => (applyOp cfg op d).1) db

/-! ## Concrete states and events used to evaluate the theorems -/

/-- A concrete configuration: channel `-100123`, group `-100456`, three
invites required. -/
def cfgA : Config := ⟨-100123, -100456, 3⟩

/-- Registered user 1 with personal link `"https://t.me/+A"`. -/
def rowA : UserRow := ⟨1, "alice", "Alice", "https://t.me/+A", 0, false, "2024-01-01"⟩

/-- User 1 already credited with two referrals. -/
def rowA2 : UserRow := { rowA with invited_count := 2 }

/-- User 1 already credited with one referral. -/
def rowA1 : UserRow := { rowA with invited_count := 1 }

/-- Registered user 3 with personal link `"https://t.me/+C"`. -/
def rowC : UserRow := ⟨3, "carol", "Carol", "https://t.me/+C", 0, false, "2024-01-01"⟩

/-- Database holding just user 1. -/
def dbA : DB := ⟨[rowA], []⟩

/-- Database holding user 1 two referrals away from nothing: counter 2. -/
def dbA2 : DB := ⟨[rowA2], []⟩

/-- Database where user 2 is credited to user 1. -/
def dbAB : DB := ⟨[rowA1], [⟨1, 2, "2024-01-02"⟩]⟩

/-- Database holding users 1 and 3, no referrals yet. -/
def dbAC : DB := ⟨[rowA, rowC], []⟩

/-- User 2 joins the monitored channel through user 1's link. -/
def evJoinA2 : ChatMemberEvent := ⟨-100123, .left, .member, some "https://t.me/+A", 2⟩

/-- User 1 joins the monitored channel through their own link. -/
def evJoinA1 : ChatMemberEvent := ⟨-100123, .left, .member, some "https://t.me/+A", 1⟩

/-- User 2 joins through user 3's link. -/
def evJoinC2 : ChatMemberEvent := ⟨-100123, .left, .member, some "https://t.me/+C", 2⟩

/-- User 2 leaves the monitored channel. -/
def evLeave2 : ChatMemberEvent := ⟨-100123, .member, .left, none, 2⟩

/-- A join event in some unrelated chat `555`. -/
def evForeign : ChatMemberEvent := ⟨555, .left, .member, some "https://t.me/+A", 2⟩

/-! ## Helper lemmas about the row updates -/

theorem bumpCount_user_id (uid : Int) (u : UserRow) :
    (bumpCount uid u).user_id = u.user_id := by
  unfold bumpCount; split <;> rfl

theorem bumpCount_invite_link (uid : Int) (u : UserRow) :
    (bumpCount uid u).invite_link = u.invite_link := by
  unfold bumpCount; split <;> rfl

theorem bumpCount_completed (uid : Int) (u : UserRow) :
    (bumpCount uid u).completed = u.completed := by
  unfold bumpCount; split <;> rfl

theorem completeRow_user_id (uid : Int) (u : UserRow) :
    (completeRow uid u).user_id = u.user_id := by
  unfold completeRow; split <;> rfl

theorem completeRow_invite_link (uid : Int) (u : UserRow) :
    (completeRow uid u).invite_link = u.invite_link := by
  unfold completeRow; split <;> rfl

theorem completeRow_invited_count (uid : Int) (u : UserRow) :
    (completeRow uid u).invited_count = u.invited_count := by
  unfold completeRow; split <;> rfl

/-- Looking a user up by id commutes with an UPDATE that keeps `user_id`. -/
theorem find?_key_map (g : UserRow → UserRow) (hg : ∀ v, (g v).user_id = v.user_id)
    (uid : Int) (l : List UserRow) :
    (l.map g).find? (fun u => u.user_id == uid) =
      (l.find? (fun u => u.user_id == uid)).map g := by
  rw [List.find?_map]
  have hp : ((fun u : UserRow => u.user_id == uid) ∘ g) =
      fun u : UserRow => u.user_id == uid := by
    funext v; simp [Function.comp, hg]
  rw [hp]

/-- Looking a user up by link commutes with an UPDATE that keeps `invite_link`. -/
theorem find?_link_map (g : UserRow → UserRow)
    (hg : ∀ v, (g v).invite_link = v.invite_link) (link : String) (l : List UserRow) :
    (l.map g).find? (fun u => u.invite_link == link) =
      (l.find? (fun u => u.invite_link == link)).map g := by
  rw [List.find?_map]
  have hp : ((fun u : UserRow => u.invite_link == link) ∘ g) =
      fun u : UserRow => u.invite_link == link := by
    funext v; simp [Function.comp, hg]
  rw [hp]

theorem get_user_key (x : Int) (db : DB) (u : UserRow) (h : get_user x db = some u) :
    u.user_id = x := by
  have := List.find?_some h
  simpa using this

theorem get_user_mem (x : Int) (db : DB) (u : UserRow) (h : get_user x db = some u) :
    u ∈ db.users :=
  List.mem_of_find?_eq_some h

theorem get_user_by_invite_link_mem (l : String) (db : DB) (u : UserRow)
    (h : get_user_by_invite_link l db = some u) : u ∈ db.users :=
  List.mem_of_find?_eq_some h

theorem increment_fst (uid : Int) (db : DB) :
    (increment_invited_count uid db).1 = { db with users := db.users.map (bumpCount uid) } :=
  rfl

theorem mark_completed_fst (uid : Int) (db : DB) :
    (mark_completed uid db).1 = { db with users := db.users.map (completeRow uid) } :=
  rfl

/-- If the first row for `uid` exists, the counter returned by
`increment_invited_count` is that row's old counter plus one. -/
theorem increment_snd (uid : Int) (db : DB) (u : UserRow)
    (h : get_user uid db = some u) :
    (increment_invited_count uid db).2 = u.invited_count + 1 := by
  have hkey : u.user_id = uid := get_user_key uid db u h
  have h2 : get_user uid (increment_invited_count uid db).1 = some (bumpCount uid u) := by
    show (db.users.map (bumpCount uid)).find? (fun v => v.user_id == uid) = _
    rw [find?_key_map (bumpCount uid) (bumpCount_user_id uid) uid db.users]
    have : db.users.find? (fun v => v.user_id == uid) = some u := h
    rw [this]
    rfl
  show (match get_user uid (increment_invited_count uid db).1 with
        | some v => v.invited_count
        | none => 0) = u.invited_count + 1
  rw [h2]
  simp [bumpCount, hkey]

/-! ## The counter invariant -/

/-- Number of referral edges whose `referrer_id` is `uid`. -/
def edgeCount (uid : Int) (db : DB) : Nat :=
  (db.referrals.filter (fun e => e.referrer_id == uid)).length

/-- Decidable check of the spec invariant: every stored user's
`invited_count` equals the number of edges whose `referrer_id` is that user. -/
def countsConsistent (db : DB) : Bool :=
  db.users.all (fun u => u.invited_count == edgeCount u.user_id db)

/-- Auxiliary invariant: every edge's referrer is a registered user (edges are
only ever inserted for a referrer found in `users`, and users are never
deleted). -/
def referrersRegistered (db : DB) : Bool :=
  db.referrals.all (fun e => db.users.any (fun u => u.user_id == e.referrer_id))

/-- The reachable-state invariant used to settle the counting claims. -/
def Inv (db : DB) : Prop :=
  countsConsistent db = true ∧ referrersRegistered db = true

theorem Inv_initDB : Inv initDB := by
  constructor <;> rfl

/-- An UPDATE that keeps `user_id` and `invited_count` of every row, and does
not touch `referrals`, preserves the invariant. -/
theorem Inv_map_users (db : DB) (g : UserRow → UserRow)
    (hgk : ∀ v, (g v).user_id = v.user_id)
    (hgc : ∀ v, (g v).invited_count = v.invited_count)
    (h : Inv db) : Inv { db with users := db.users.map g } := by
  obtain ⟨h1, h2⟩ := h
  constructor
  · rw [countsConsistent, List.all_eq_true] at h1 ⊢
    intro u' hu'
    obtain ⟨u, hu, rfl⟩ := List.mem_map.mp hu'
    have hc := h1 u hu
    show ((g u).invited_count == edgeCount (g u).user_id db) = true
    rw [hgk, hgc]
    exact hc
  · rw [referrersRegistered, List.all_eq_true] at h2 ⊢
    intro e he
    have hany := h2 e he
    rw [List.any_eq_true] at hany ⊢
    obtain ⟨u, hu, hq⟩ := hany
    refine ⟨g u, List.mem_map_of_mem g hu, ?_⟩
    rw [hgk]
    exact hq

/-- The crediting step of the join handler: appending a fresh edge for a
registered referrer `R` and bumping every row with id `R` preserves the
invariant. -/
theorem Inv_credit (db : DB) (R D : Int) (now : String)
    (hreg : ∃ w ∈ db.users, w.user_id = R)
    (h : Inv db) :
    Inv { users := db.users.map (bumpCount R),
          referrals := db.referrals ++ [⟨R, D, now⟩] } := by
  obtain ⟨h1, h2⟩ := h
  have hec : ∀ x : Int,
      edgeCount x ⟨db.users.map (bumpCount R), db.referrals ++ [⟨R, D, now⟩]⟩ =
        edgeCount x db + (if R == x then 1 else 0) := by
    intro x
    show (List.filter (fun e : ReferralRow => e.referrer_id == x)
        (db.referrals ++ [(⟨R, D, now⟩ : ReferralRow)])).length = _
    rw [List.filter_append]
    rw [List.length_append]
    congr 1
    show (List.filter (fun e : ReferralRow => e.referrer_id == x)
        [(⟨R, D, now⟩ : ReferralRow)]).length = _
    by_cases hx : R == x
    · simp [List.filter, hx]
    · simp [List.filter, hx]
  constructor
  · rw [countsConsistent, List.all_eq_true] at h1 ⊢
    intro u' hu'
    obtain ⟨u, hu, rfl⟩ := List.mem_map.mp hu'
    have hc := h1 u hu
    rw [beq_iff_eq] at hc
    show ((bumpCount R u).invited_count ==
        edgeCount (bumpCount R u).user_id
          ⟨db.users.map (bumpCount R), db.referrals ++ [⟨R, D, now⟩]⟩) = true
    rw [beq_iff_eq, bumpCount_user_id, hec u.user_id]
    by_cases hx : u.user_id = R
    · simp [bumpCount, hx, hc]
    · have hb : (u.user_id == R) = false := by
        rw [Bool.eq_false_iff]
        intro hf
        exact hx (beq_iff_eq.mp hf)
      have hb' : (R == u.user_id) = false := by
        rw [Bool.eq_false_iff]
        intro hf
        exact hx (beq_iff_eq.mp hf).symm
      simp [bumpCount, hb, hb', hc]
  · rw [referrersRegistered, List.all_eq_true] at h2 ⊢
    intro e he
    rw [List.any_eq_true]
    show ∃ u ∈ db.users.map (bumpCount R), (u.user_id == e.referrer_id) = true
    rw [List.mem_append] at he
    cases he with
    | inl he =>
      have hany := h2 e he
      rw [List.any_eq_true] at hany
      obtain ⟨u, hu, hq⟩ := hany
      refine ⟨bumpCount R u, List.mem_map_of_mem _ hu, ?_⟩
      rw [bumpCount_user_id]
      exact hq
    | inr he =>
      have : e = ⟨R, D, now⟩ := by simpa using he
      subst this
      obtain ⟨w, hw, hwid⟩ := hreg
      refine ⟨bumpCount R w, List.mem_map_of_mem _ hw, ?_⟩
      rw [bumpCount_user_id]
      simp [hwid]

/-- Registering a user (`create_user`) preserves the invariant: the new row
starts at `invited_count = 0` and no edge can already name it as referrer. -/
theorem Inv_create_user (uid : Int) (username full_name link now : String)
    (db : DB) (h : Inv db) :
    Inv (create_user uid username full_name link now db) := by
  obtain ⟨h1, h2⟩ := h
  unfold create_user
  split
  · exact ⟨h1, h2⟩
  case isFalse hany =>
    rw [referrersRegistered, List.all_eq_true] at h2
    have hfresh : ∀ u ∈ db.users, ¬u.user_id = uid := by
      intro u hu hne
      exact hany (List.any_eq_true.mpr ⟨u, hu, by simp [hne]⟩)
    constructor
    · rw [countsConsistent, List.all_eq_true] at h1 ⊢
      intro u hu
      rw [List.mem_append] at hu
      cases hu with
      | inl hu =>
        have hc := h1 u hu
        exact hc
      | inr hu =>
        have : u = ⟨uid, username, full_name, link, 0, false, now⟩ := by simpa using hu
        subst this
        have hzero : edgeCount uid db = 0 := by
          unfold edgeCount
          rw [List.length_eq_zero, List.filter_eq_nil_iff]
          intro e he hp
          have hany2 := h2 e he
          rw [List.any_eq_true] at hany2
          obtain ⟨w, hw, hq⟩ := hany2
          have h3 : e.referrer_id = uid := by simpa using hp
          have h4 : w.user_id = e.referrer_id := by simpa using hq
          exact hfresh w hw (h4.trans h3)
        show ((0 : Nat) ==
          edgeCount uid ⟨db.users ++ [⟨uid, username, full_name, link, 0, false, now⟩],
            db.referrals⟩) = true
        have heq : edgeCount uid ⟨db.users ++ [⟨uid, username, full_name, link, 0, false, now⟩],
            db.referrals⟩ = edgeCount uid db := rfl
        rw [heq, hzero]
        rfl
    · rw [referrersRegistered, List.all_eq_true]
      intro e he
      have hany2 := h2 e he
      rw [List.any_eq_true] at hany2 ⊢
      obtain ⟨w, hw, hq⟩ := hany2
      exact ⟨w, List.mem_append.mpr (Or.inl hw), hq⟩

/-! ## Shape of the states produced by the handlers -/

/-- `_grant_group_access` either leaves the database untouched or applies the
`mark_completed` UPDATE; it never touches `referrals`. -/
theorem grant_fst_cases (i s : Bool) (uid : Int) (db : DB) :
    (grant_group_access i s uid db).1 = db ∨
      (grant_group_access i s uid db).1 = (mark_completed uid db).1 := by
  unfold grant_group_access
  cases hg : get_user uid db with
  | none => exact Or.inl rfl
  | some u =>
    dsimp only
    split
    · exact Or.inl rfl
    · split
      · split
        · split
          · exact Or.inr rfl
          · exact Or.inr rfl
        · exact Or.inr rfl
      · exact Or.inr rfl

/-- The state `_grant_group_access` leaves behind: `referrals` unchanged and
`users` mapped by a transformation keeping id, link and counter. -/
theorem grant_shape (i s : Bool) (uid : Int) (db : DB) :
    ∃ g : UserRow → UserRow,
      (∀ v, (g v).user_id = v.user_id ∧ (g v).invite_link = v.invite_link ∧
        (g v).invited_count = v.invited_count) ∧
      (grant_group_access i s uid db).1 = { db with users := db.users.map g } := by
  rcases grant_fst_cases i s uid db with h | h
  · refine ⟨id, by simp, ?_⟩
    rw [h]
    show db = { db with users := db.users.map id }
    rw [List.map_id]
  · refine ⟨completeRow uid, ?_, ?_⟩
    · intro v
      exact ⟨completeRow_user_id uid v, completeRow_invite_link uid v,
        completeRow_invited_count uid v⟩
    · rw [h, mark_completed_fst]

/-- `_grant_group_access` preserves the counting invariant. -/
theorem Inv_grant (i s : Bool) (uid : Int) (db : DB) (h : Inv db) :
    Inv (grant_group_access i s uid db).1 := by
  obtain ⟨g, hg, hshape⟩ := grant_shape i s uid db
  rw [hshape]
  exact Inv_map_users db g (fun v => (hg v).1) (fun v => (hg v).2.2) h

/-- `on_chat_member_updated` preserves the counting invariant. -/
theorem Inv_on_chat_member_updated (cfg : Config) (i s : Bool) (now : String)
    (ev : ChatMemberEvent) (db : DB) (h : Inv db) :
    Inv (on_chat_member_updated cfg i s now ev db).1 := by
  unfold on_chat_member_updated
  split
  · exact h
  · split
    · cases hl : ev.invite_link with
      | none => exact h
      | some used_url =>
        dsimp only
        cases hr : get_user_by_invite_link used_url db with
        | none => exact h
        | some referrer =>
          dsimp only
          split
          · exact h
          · split
            · exact h
            case isFalse hnc =>
              have hadd : (add_referral referrer.user_id ev.new_member_id now db).1 =
                  { db with referrals :=
                      db.referrals ++ [⟨referrer.user_id, ev.new_member_id, now⟩] } := by
                unfold add_referral
                rw [if_neg (by simpa using hnc)]
              have hcredit :
                  (increment_invited_count referrer.user_id
                    (add_referral referrer.user_id ev.new_member_id now db).1).1 =
                  { users := db.users.map (bumpCount referrer.user_id),
                    referrals :=
                      db.referrals ++ [⟨referrer.user_id, ev.new_member_id, now⟩] } := by
                rw [hadd, increment_fst]
              have hInv2 : Inv
                  { users := db.users.map (bumpCount referrer.user_id),
                    referrals :=
                      db.referrals ++ [⟨referrer.user_id, ev.new_member_id, now⟩] } := by
                refine Inv_credit db referrer.user_id ev.new_member_id now ?_ h
                exact ⟨referrer, get_user_by_invite_link_mem used_url db referrer hr, rfl⟩
              split
              · rw [hcredit]
                exact hInv2
              · rw [hcredit]
                exact Inv_grant i s referrer.user_id _ hInv2
    · exact h

/-- `handle_get_link` preserves the counting invariant. -/
theorem Inv_handle_get_link (linkOk : Bool) (freshLink now : String) (uid : Int)
    (username full_name : String) (db : DB) (h : Inv db) :
    Inv (handle_get_link linkOk freshLink now uid username full_name db).1 := by
  unfold handle_get_link
  cases hg : get_user uid db with
  | some u => exact h
  | none =>
    dsimp only
    split
    · exact Inv_create_user uid username full_name freshLink now db h
    · exact h

/-- Every operation preserves the counting invariant. -/
theorem Inv_applyOp (cfg : Config) (op : Op) (db : DB) (h : Inv db) :
    Inv (applyOp cfg op db).1 := by
  cases op with
  | memberEvent i s now ev => exact Inv_on_chat_member_updated cfg i s now ev db h
  | getLink linkOk freshLink now uid username full_name =>
      exact Inv_handle_get_link linkOk freshLink now uid username full_name db h

/-- Any run of operations preserves the counting invariant. -/
theorem Inv_runOps (cfg : Config) (ops : List Op) (db : DB) (h : Inv db) :
    Inv (runOps cfg ops db) := by
  induction ops generalizing db with
  | nil => exact h
  | cons op ops ih =>
    show Inv (runOps cfg ops (applyOp cfg op db).1)
    exact ih _ (Inv_applyOp cfg op db h)

/-- A join event whose resolved referrer already holds an edge for the
joining user is absorbed: state unchanged, nothing sent. -/
theorem handler_counted_noop (cfg : Config) (i s : Bool) (now : String)
    (ev : ChatMemberEvent) (db : DB) (l : String) (r : UserRow)
    (hl : ev.invite_link = some l)
    (hr : get_user_by_invite_link l db = some r)
    (hc : is_referral_counted r.user_id ev.new_member_id db = true) :
    on_chat_member_updated cfg i s now ev db = (db, []) := by
  unfold on_chat_member_updated
  split
  · rfl
  · split
    · rw [hl]
      dsimp only
      rw [hr]
      dsimp only
      simp [hc]
    · rfl

/-- The users table after `on_chat_member_updated` is the old table mapped
row-by-row by some transformation keeping `user_id` and `invite_link`. -/
theorem handler_shape (cfg : Config) (i s : Bool) (now : String)
    (ev : ChatMemberEvent) (db : DB) :
    ∃ g : UserRow → UserRow,
      (∀ v, (g v).user_id = v.user_id ∧ (g v).invite_link = v.invite_link) ∧
      (on_chat_member_updated cfg i s now ev db).1.users = db.users.map g := by
  unfold on_chat_member_updated
  split
  · exact ⟨id, by simp, (List.map_id _).symm⟩
  · split
    · cases hl : ev.invite_link with
      | none => exact ⟨id, by simp, (List.map_id _).symm⟩
      | some used_url =>
        dsimp only
        cases hr : get_user_by_invite_link used_url db with
        | none => exact ⟨id, by simp, (List.map_id _).symm⟩
        | some referrer =>
          dsimp only
          split
          · exact ⟨id, by simp, (List.map_id _).symm⟩
          · split
            · exact ⟨id, by simp, (List.map_id _).symm⟩
            · split
              · refine ⟨bumpCount referrer.user_id, ?_, ?_⟩
                · intro v
                  exact ⟨bumpCount_user_id _ v, bumpCount_invite_link _ v⟩
                · show (increment_invited_count referrer.user_id
                      (add_referral referrer.user_id ev.new_member_id now
                        db).1).1.users = _
                  rw [increment_fst]
                  show ((add_referral referrer.user_id ev.new_member_id now
                      db).1.users).map (bumpCount referrer.user_id) = _
                  have hau : (add_referral referrer.user_id ev.new_member_id now
                      db).1.users = db.users := by
                    unfold add_referral
                    split <;> rfl
                  rw [hau]
              · obtain ⟨g', hg', hshape'⟩ := grant_shape i s referrer.user_id
                  (increment_invited_count referrer.user_id
                    (add_referral referrer.user_id ev.new_member_id now db).1).1
                refine ⟨g' ∘ bumpCount referrer.user_id, ?_, ?_⟩
                · intro v
                  constructor
                  · show (g' (bumpCount referrer.user_id v)).user_id = v.user_id
                    rw [(hg' _).1, bumpCount_user_id]
                  · show (g' (bumpCount referrer.user_id v)).invite_link = v.invite_link
                    rw [(hg' _).2.1, bumpCount_invite_link]
                · rw [hshape']
                  show ((increment_invited_count referrer.user_id
                      (add_referral referrer.user_id ev.new_member_id now db).1).1.users).map g' =
                    _
                  rw [increment_fst]
                  show (((add_referral referrer.user_id ev.new_member_id now
                      db).1.users).map (bumpCount referrer.user_id)).map g' = _
                  have hau : (add_referral referrer.user_id ev.new_member_id now
                      db).1.users = db.users := by
                    unfold add_referral
                    split <;> rfl
                  rw [hau, List.map_map]
    · exact ⟨id, by simp, (List.map_id _).symm⟩

/-- One operation never changes the first stored row (hence the stored
`invite_link`) for a registered user id, except for its counters/flags. -/
theorem get_user_link_applyOp (cfg : Config) (op : Op) (uid : Int)
    (u : UserRow) (db : DB) (h : get_user uid db = some u) :
    ∃ u', get_user uid (applyOp cfg op db).1 = some u' ∧
      u'.invite_link = u.invite_link := by
  cases op with
  | memberEvent i s now ev =>
    obtain ⟨g, hg, hshape⟩ := handler_shape cfg i s now ev db
    refine ⟨g u, ?_, (hg u).2⟩
    show ((on_chat_member_updated cfg i s now ev db).1.users).find?
        (fun v => v.user_id == uid) = some (g u)
    rw [hshape, find?_key_map g (fun v => (hg v).1) uid db.users]
    rw [show db.users.find? (fun v => v.user_id == uid) = some u from h]
    rfl
  | getLink linkOk freshLink now uid2 username full_name =>
    show ∃ u', get_user uid
        (handle_get_link linkOk freshLink now uid2 username full_name db).1 =
        some u' ∧ u'.invite_link = u.invite_link
    unfold handle_get_link
    cases hg2 : get_user uid2 db with
    | some w => exact ⟨u, h, rfl⟩
    | none =>
      dsimp only
      split
      · unfold create_user
        split
        · exact ⟨u, h, rfl⟩
        · refine ⟨u, ?_, rfl⟩
          show (db.users ++
              ([⟨uid2, username, full_name, freshLink, 0, false, now⟩] :
                List UserRow)).find?
              (fun v => v.user_id == uid) = some u
          rw [List.find?_append,
            show db.users.find? (fun v => v.user_id == uid) = some u from h]
          rfl
      · exact ⟨u, h, rfl⟩

/-- No run of operations ever changes the stored `invite_link` of a
registered user. -/
theorem get_user_link_runOps (cfg : Config) (ops : List Op) (uid : Int)
    (u : UserRow) (db : DB) (h : get_user uid db = some u) :
    ∃ u', get_user uid (runOps cfg ops db) = some u' ∧
      u'.invite_link = u.invite_link := by
  induction ops generalizing db u with
  | nil => exact ⟨u, h, rfl⟩
  | cons op ops ih =>
    obtain ⟨u', h', hl'⟩ := get_user_link_applyOp cfg op uid u db h
    obtain ⟨u'', h'', hl''⟩ := ih u' (applyOp cfg op db).1 h'
    exact ⟨u'', h'', hl''.trans hl'⟩

/-! ## The claims -/

/-- C1: for every user `u`, after any sequence of membership-event and
link-issuance operations applied to the freshly initialised database
(including duplicate deliveries and leave events, which the code ignores),
the stored `invited_count` of `u` equals the number of referral edges whose
`referrer_id` is `u`. -/
theorem invited_count_equals_edge_count (cfg : Config) (ops : List Op) :
    countsConsistent (runOps cfg ops initDB) = true :=
  (Inv_runOps cfg ops initDB Inv_initDB).1

/-- C10: `increment_invited_count` for a `user_id` with no row in `users`
changes neither table and returns `0`. -/
theorem increment_unknown_user_noop (uid : Int) (db : DB)
    (h : get_user uid db = none) :
    increment_invited_count uid db = (db, 0) := by
  have hall : ∀ u ∈ db.users, bumpCount uid u = u := by
    intro u hu
    have hf := List.find?_eq_none.mp h u hu
    unfold bumpCount
    rw [if_neg hf]
  have hmap : db.users.map (bumpCount uid) = db.users := by
    rw [List.map_congr_left hall, List.map_id']
  show (({ db with users := db.users.map (bumpCount uid) } : DB),
      match get_user uid ({ db with users := db.users.map (bumpCount uid) } : DB) with
      | some u => u.invited_count
      | none => 0) = (db, 0)
  rw [hmap]
  show (db, match get_user uid db with
            | some u => u.invited_count
            | none => 0) = (db, 0)
  rw [h]

/-- Witness for C10 on a concrete input: user 7 is absent from `dbA`. -/
theorem increment_unknown_user_noop_witness :
    get_user 7 dbA = none ∧ increment_invited_count 7 dbA = (dbA, 0) :=
  ⟨by decide, increment_unknown_user_noop 7 dbA (by decide)⟩

/-- C5: a join event whose used invite link resolves to the joining user
themselves (self-referral) is never credited: the handler leaves the database
unchanged and sends nothing. -/
theorem self_referral_never_credited (cfg : Config) (i s : Bool) (now : String)
    (ev : ChatMemberEvent) (db : DB) (l : String) (r : UserRow)
    (hl : ev.invite_link = some l)
    (hr : get_user_by_invite_link l db = some r)
    (hself : r.user_id = ev.new_member_id) :
    on_chat_member_updated cfg i s now ev db = (db, []) := by
  unfold on_chat_member_updated
  split
  · rfl
  · split
    · rw [hl]
      dsimp only
      rw [hr]
      dsimp only
      rw [if_pos hself.symm]
    · rfl

/-- Witness for C5 on a concrete input: user 1 joining through their own
link in `dbA`. -/
theorem self_referral_never_credited_witness :
    get_user_by_invite_link "https://t.me/+A" dbA = some rowA ∧
      rowA.user_id = evJoinA1.new_member_id ∧
      on_chat_member_updated cfgA true true "2024-01-02" evJoinA1 dbA = (dbA, []) :=
  ⟨by decide, by decide,
    self_referral_never_credited cfgA true true "2024-01-02" evJoinA1 dbA
      "https://t.me/+A" rowA rfl (by decide) (by decide)⟩

/-- C9: an event for a chat other than the monitored channel, and a join
whose invite link does not resolve to any registered user, leave the whole
database unchanged and send no messages. -/
theorem foreign_chat_or_unresolved_ignored (cfg : Config) (i s : Bool)
    (now : String) (ev : ChatMemberEvent) (db : DB)
    (h : ev.chat_id ≠ cfg.channel_id ∨
      ∃ l, ev.invite_link = some l ∧ get_user_by_invite_link l db = none) :
    on_chat_member_updated cfg i s now ev db = (db, []) := by
  unfold on_chat_member_updated
  rcases h with h | ⟨l, hl, hres⟩
  · rw [if_pos h]
  · split
    · rfl
    · split
      · rw [hl]
        dsimp only
        rw [hres]
      · rfl

/-- Witness for C9 on a concrete input: a join in unrelated chat 555. -/
theorem foreign_chat_or_unresolved_ignored_witness :
    evForeign.chat_id ≠ cfgA.channel_id ∧
      on_chat_member_updated cfgA true true "2024-01-02" evForeign dbA = (dbA, []) :=
  ⟨by decide,
    foreign_chat_or_unresolved_ignored cfgA true true "2024-01-02" evForeign dbA
      (Or.inl (by decide))⟩

/-- C4 fails on the code: when credited user 2 leaves the channel
(`member → left`), the handler does not delete the edge, does not decrement
user 1's `invited_count`, and sends no decrement notification — the state is
returned untouched, contradicting the claimed revoke behaviour. -/
theorem leave_event_counterexample :
    on_chat_member_updated cfgA true true "2024-01-03" evLeave2 dbAB = (dbAB, []) ∧
      is_referral_counted 1 2 dbAB = true ∧
      (get_user 1 dbAB).map UserRow.invited_count = some 1 := by
  decide

/-- C4 (amended): any membership event whose `new_status` is not `member` —
in particular the leave of a credited referred user (`member → left/kicked`) —
is ignored by the handler: the referral edge is retained, every
`invited_count` is unchanged and no message is sent; the code has no revoke
operation. -/
theorem leave_event_is_noop (cfg : Config) (i s : Bool) (now : String)
    (ev : ChatMemberEvent) (db : DB)
    (h : ev.new_status = .left ∨ ev.new_status = .kicked) :
    on_chat_member_updated cfg i s now ev db = (db, []) := by
  unfold on_chat_member_updated
  split
  · rfl
  · split
    case isTrue hj =>
      exfalso
      rcases h with h | h <;> rw [h] at hj <;> exact absurd hj.2 (by simp)
    · rfl

/-- Witness for the amended C4 on a concrete input: the leave of credited
user 2 leaves `dbAB` (edge included) untouched. -/
theorem leave_event_is_noop_witness :
    evLeave2.new_status = MemberStatus.left ∧
      on_chat_member_updated cfgA true true "2024-01-03" evLeave2 dbAB = (dbAB, []) :=
  ⟨by decide,
    leave_event_is_noop cfgA true true "2024-01-03" evLeave2 dbAB (Or.inl (by decide))⟩

/-- C3 fails on the code: the "already counted" check is per
(referrer, referred) pair, not per referred user.  Concretely: user 2 joins
through user 1's link (edge 1→2 credited), leaves, and rejoins through user
3's link; the handler inserts a second edge with `referred_id = 2` and
increments user 3's `invited_count`, although user 2 was already credited to
user 1. -/
theorem second_referrer_double_edge :
    is_referral_counted 1 2
        (runOps cfgA [.memberEvent true true "t1" evJoinA2,
          .memberEvent true true "t2" evLeave2] dbAC) = true ∧
      ((on_chat_member_updated cfgA true true "t3" evJoinC2
          (runOps cfgA [.memberEvent true true "t1" evJoinA2,
            .memberEvent true true "t2" evLeave2] dbAC)).1.referrals.filter
          (fun e => e.referred_id == 2)).length = 2 ∧
      (get_user 3 (on_chat_member_updated cfgA true true "t3" evJoinC2
          (runOps cfgA [.memberEvent true true "t1" evJoinA2,
            .memberEvent true true "t2" evLeave2] dbAC)).1).map
          UserRow.invited_count = some 1 := by
  decide

/-- C3 (amended): a user can be the referred side of at most one
currently-credited edge per referrer: a join event for a user who is already
credited to the referrer whose invite token the join used never inserts a
second edge and never increments any `invited_count` — the handler leaves the
database unchanged and sends nothing.  (A join through a different registered
referrer's token does credit a second edge, as the counterexample shows.) -/
theorem already_counted_pair_noop (cfg : Config) (i s : Bool) (now : String)
    (ev : ChatMemberEvent) (db : DB) (l : String) (r : UserRow)
    (hl : ev.invite_link = some l)
    (hr : get_user_by_invite_link l db = some r)
    (hc : is_referral_counted r.user_id ev.new_member_id db = true) :
    on_chat_member_updated cfg i s now ev db = (db, []) := by
  unfold on_chat_member_updated
  split
  · rfl
  · split
    · rw [hl]
      dsimp only
      rw [hr]
      dsimp only
      simp [hc]
    · rfl

/-- Witness for the amended C3 on a concrete input: user 2, already credited
to user 1, rejoins through user 1's own link; nothing changes. -/
theorem already_counted_pair_noop_witness :
    get_user_by_invite_link "https://t.me/+A" dbAB = some rowA1 ∧
      is_referral_counted rowA1.user_id evJoinA2.new_member_id dbAB = true ∧
      on_chat_member_updated cfgA true true "2024-01-04" evJoinA2 dbAB = (dbAB, []) :=
  ⟨by decide, by decide,
    already_counted_pair_noop cfgA true true "2024-01-04" evJoinA2 dbAB
      "https://t.me/+A" rowA1 rfl (by decide) (by decide)⟩

/-- C8: once `mark_completed` has committed the completion, a failing
transport call (creating the group invite or sending the grant message) rolls
nothing back: `completed` stays `true`, `referrals` and every user's
`invited_count` are unchanged, and the failure is only logged. -/
theorem transport_failure_no_rollback (i s : Bool) (uid : Int) (db : DB)
    (u : UserRow)
    (hu : get_user uid db = some u)
    (hc : u.completed = false)
    (hfail : i = false ∨ s = false) :
    (get_user uid (grant_group_access i s uid db).1).map UserRow.completed =
        some true ∧
      (grant_group_access i s uid db).1.referrals = db.referrals ∧
      (grant_group_access i s uid db).1.users.map
          (fun v => (v.user_id, v.invited_count)) =
        db.users.map (fun v => (v.user_id, v.invited_count)) ∧
      Effect.logError ∈ (grant_group_access i s uid db).2 := by
  have hkey : u.user_id = uid := get_user_key uid db u hu
  have hpred : (u.user_id == uid && !u.completed) = true := by
    simp [hkey, hc]
  have happ : (mark_completed uid db).2 = true := by
    have hmem : u ∈ db.users.filter (fun v => v.user_id == uid && !v.completed) :=
      List.mem_filter.mpr ⟨get_user_mem uid db u hu, hpred⟩
    exact decide_eq_true (List.length_pos.mpr (List.ne_nil_of_mem hmem))
  have hcompleted :
      (get_user uid (mark_completed uid db).1).map UserRow.completed = some true := by
    rw [mark_completed_fst]
    show ((db.users.map (completeRow uid)).find? (fun v => v.user_id == uid)).map
        UserRow.completed = some true
    rw [find?_key_map (completeRow uid) (completeRow_user_id uid) uid db.users]
    have hfu : db.users.find? (fun v => v.user_id == uid) = some u := hu
    rw [hfu]
    show some (completeRow uid u).completed = some true
    unfold completeRow
    rw [if_pos hpred]
  have hrefs : (mark_completed uid db).1.referrals = db.referrals := rfl
  have husers : (mark_completed uid db).1.users.map
      (fun v => (v.user_id, v.invited_count)) =
      db.users.map (fun v => (v.user_id, v.invited_count)) := by
    rw [mark_completed_fst]
    show (db.users.map (completeRow uid)).map _ = _
    rw [List.map_map]
    congr 1
    funext v
    show ((completeRow uid v).user_id, (completeRow uid v).invited_count) =
      (v.user_id, v.invited_count)
    rw [completeRow_user_id, completeRow_invited_count]
  have hgrant : (grant_group_access i s uid db).1 = (mark_completed uid db).1 ∧
      Effect.logError ∈ (grant_group_access i s uid db).2 := by
    unfold grant_group_access
    rw [hu]
    dsimp only
    rw [if_neg (show ¬u.completed = true by simp [hc])]
    rw [if_pos happ]
    rcases hfail with h | h
    · subst h
      simp
    · subst h
      cases i <;> simp
  rw [hgrant.1]
  exact ⟨hcompleted, hrefs, husers, hgrant.2⟩

/-- Witness for C8 on a concrete input: granting for user 1 in `dbAB` with a
failing invite-creation call commits `completed` and rolls nothing back. -/
theorem transport_failure_no_rollback_witness :
    get_user 1 dbAB = some rowA1 ∧ rowA1.completed = false ∧
      (get_user 1 (grant_group_access false true 1 dbAB).1).map
          UserRow.completed = some true ∧
      (grant_group_access false true 1 dbAB).1.referrals = dbAB.referrals ∧
      Effect.logError ∈ (grant_group_access false true 1 dbAB).2 :=
  ⟨by decide, by decide,
    (transport_failure_no_rollback false true 1 dbAB rowA1 (by decide) (by decide)
      (Or.inl rfl)).1,
    (transport_failure_no_rollback false true 1 dbAB rowA1 (by decide) (by decide)
      (Or.inl rfl)).2.1,
    (transport_failure_no_rollback false true 1 dbAB rowA1 (by decide) (by decide)
      (Or.inl rfl)).2.2.2⟩

/-- C6: invite-token issuance is idempotent with at most one token per user:
when the user already has a record, `handle_get_link` returns the stored
link and modifies nothing, and no sequence of operations ever changes a
registered user's stored `invite_link`. -/
theorem invite_token_idempotent_immutable (cfg : Config) (uid : Int)
    (u : UserRow) (db : DB) (h : get_user uid db = some u) :
    (∀ (linkOk : Bool) (freshLink now username full_name : String),
        handle_get_link linkOk freshLink now uid username full_name db =
          (db, [Effect.replyLink uid u.invite_link])) ∧
      ∀ ops : List Op, ∃ u', get_user uid (runOps cfg ops db) = some u' ∧
        u'.invite_link = u.invite_link := by
  constructor
  · intro linkOk freshLink now username full_name
    unfold handle_get_link
    rw [h]
  · intro ops
    exact get_user_link_runOps cfg ops uid u db h

/-- Witness for C6 on a concrete input: repeated issuance for user 1 returns
the stored link and changes nothing, and the link survives further
operations. -/
theorem invite_token_idempotent_immutable_witness :
    get_user 1 dbAB = some rowA1 ∧
      handle_get_link true "https://t.me/+NEW" "t9" 1 "alice" "Alice" dbAB =
        (dbAB, [Effect.replyLink 1 rowA1.invite_link]) ∧
      ∃ u', get_user 1 (runOps cfgA
          [.getLink true "https://t.me/+NEW" "t9" 1 "alice" "Alice",
            .memberEvent true true "t10" evJoinA2] dbAB) = some u' ∧
        u'.invite_link = rowA1.invite_link :=
  ⟨by decide,
    (invite_token_idempotent_immutable cfgA 1 rowA1 dbAB (by decide)).1
      true "https://t.me/+NEW" "t9" "alice" "Alice",
    (invite_token_idempotent_immutable cfgA 1 rowA1 dbAB (by decide)).2
      [.getLink true "https://t.me/+NEW" "t9" 1 "alice" "Alice",
        .memberEvent true true "t10" evJoinA2]⟩

/-- C2: a join event that carries referrer `r` (registered, not yet
completed) across the configured threshold marks `r` completed and performs
the grant action — one single-use group invite created and delivered —
exactly once, and replaying the same crossing event against the resulting
state applies no side effect and leaves the state unchanged. -/
theorem threshold_grant_exactly_once (cfg : Config) (now now' : String)
    (ev : ChatMemberEvent) (db : DB) (l : String) (r : UserRow)
    (hch : ev.chat_id = cfg.channel_id)
    (hold : ev.old_status = MemberStatus.left ∨ ev.old_status = MemberStatus.kicked)
    (hnew : ev.new_status = MemberStatus.member)
    (hl : ev.invite_link = some l)
    (hr : get_user_by_invite_link l db = some r)
    (hfirst : get_user r.user_id db = some r)
    (hns : ev.new_member_id ≠ r.user_id)
    (hnc : is_referral_counted r.user_id ev.new_member_id db = false)
    (hcompl : r.completed = false)
    (hthr : cfg.required_invites ≤ r.invited_count + 1) :
    (on_chat_member_updated cfg true true now ev db).2 =
        [Effect.createGroupInvite r.user_id, Effect.grantMsg r.user_id] ∧
      (get_user r.user_id (on_chat_member_updated cfg true true now ev db).1).map
          UserRow.completed = some true ∧
      on_chat_member_updated cfg true true now' ev
          (on_chat_member_updated cfg true true now ev db).1 =
        ((on_chat_member_updated cfg true true now ev db).1, []) := by
  have hncP : ¬is_referral_counted r.user_id ev.new_member_id db = true := by
    rw [hnc]
    simp
  have hadd : (add_referral r.user_id ev.new_member_id now db).1 =
      ({ db with referrals :=
          db.referrals ++ [⟨r.user_id, ev.new_member_id, now⟩] } : DB) := by
    unfold add_referral
    rw [if_neg hncP]
  have hmid : get_user r.user_id
      ({ db with referrals :=
          db.referrals ++ [⟨r.user_id, ev.new_member_id, now⟩] } : DB) = some r :=
    hfirst
  have hsnd : (increment_invited_count r.user_id
      ({ db with referrals :=
          db.referrals ++ [⟨r.user_id, ev.new_member_id, now⟩] } : DB)).2 =
      r.invited_count + 1 :=
    increment_snd _ _ r hmid
  have hrun : on_chat_member_updated cfg true true now ev db =
      grant_group_access true true r.user_id
        ⟨db.users.map (bumpCount r.user_id),
          db.referrals ++ [⟨r.user_id, ev.new_member_id, now⟩]⟩ := by
    unfold on_chat_member_updated
    rw [if_neg (show ¬ev.chat_id ≠ cfg.channel_id from fun hne => hne hch)]
    rw [if_pos ⟨hold, hnew⟩]
    rw [hl]
    dsimp only
    rw [hr]
    dsimp only
    rw [if_neg hns]
    rw [if_neg hncP]
    rw [hadd, hsnd]
    rw [if_neg (show ¬r.invited_count + 1 < cfg.required_invites from
      Nat.not_lt.mpr hthr)]
    rw [increment_fst]
  have hmem : r ∈ db.users := get_user_mem _ _ _ hfirst
  have hg2 : get_user r.user_id
      (⟨db.users.map (bumpCount r.user_id),
        db.referrals ++ [⟨r.user_id, ev.new_member_id, now⟩]⟩ : DB) =
      some (bumpCount r.user_id r) := by
    show (db.users.map (bumpCount r.user_id)).find?
        (fun v => v.user_id == r.user_id) = _
    rw [find?_key_map _ (bumpCount_user_id _) _ _]
    rw [show db.users.find? (fun v => v.user_id == r.user_id) = some r from hfirst]
    rfl
  have hpred2 : ((bumpCount r.user_id r).user_id == r.user_id &&
      !(bumpCount r.user_id r).completed) = true := by
    rw [bumpCount_user_id, bumpCount_completed]
    simp [hcompl]
  have happ2 : (mark_completed r.user_id
      (⟨db.users.map (bumpCount r.user_id),
        db.referrals ++ [⟨r.user_id, ev.new_member_id, now⟩]⟩ : DB)).2 = true := by
    have hmem2 : bumpCount r.user_id r ∈
        (db.users.map (bumpCount r.user_id)).filter
          (fun v => v.user_id == r.user_id && !v.completed) :=
      List.mem_filter.mpr ⟨List.mem_map_of_mem _ hmem, hpred2⟩
    exact decide_eq_true (List.length_pos.mpr (List.ne_nil_of_mem hmem2))
  have hgrant : grant_group_access true true r.user_id
      (⟨db.users.map (bumpCount r.user_id),
        db.referrals ++ [⟨r.user_id, ev.new_member_id, now⟩]⟩ : DB) =
      ((mark_completed r.user_id
        (⟨db.users.map (bumpCount r.user_id),
          db.referrals ++ [⟨r.user_id, ev.new_member_id, now⟩]⟩ : DB)).1,
        [Effect.createGroupInvite r.user_id, Effect.grantMsg r.user_id]) := by
    unfold grant_group_access
    rw [hg2]
    dsimp only
    rw [if_neg (show ¬(bumpCount r.user_id r).completed = true by
      rw [bumpCount_completed]
      simp [hcompl])]
    rw [if_pos happ2]
    rfl
  have hg3 : get_user r.user_id (mark_completed r.user_id
      (⟨db.users.map (bumpCount r.user_id),
        db.referrals ++ [⟨r.user_id, ev.new_member_id, now⟩]⟩ : DB)).1 =
      some (completeRow r.user_id (bumpCount r.user_id r)) := by
    rw [mark_completed_fst]
    show ((db.users.map (bumpCount r.user_id)).map
        (completeRow r.user_id)).find? (fun v => v.user_id == r.user_id) = _
    rw [find?_key_map _ (completeRow_user_id _) _ _]
    rw [show (db.users.map (bumpCount r.user_id)).find?
        (fun v => v.user_id == r.user_id) = some (bumpCount r.user_id r) from hg2]
    rfl
  have hcomp3 : (completeRow r.user_id (bumpCount r.user_id r)).completed = true := by
    unfold completeRow
    rw [if_pos hpred2]
  have hlink3 : get_user_by_invite_link l (mark_completed r.user_id
      (⟨db.users.map (bumpCount r.user_id),
        db.referrals ++ [⟨r.user_id, ev.new_member_id, now⟩]⟩ : DB)).1 =
      some (completeRow r.user_id (bumpCount r.user_id r)) := by
    rw [mark_completed_fst]
    show ((db.users.map (bumpCount r.user_id)).map
        (completeRow r.user_id)).find? (fun v => v.invite_link == l) = _
    rw [find?_link_map _ (completeRow_invite_link _) _ _]
    rw [find?_link_map _ (bumpCount_invite_link _) _ _]
    rw [show db.users.find? (fun v => v.invite_link == l) = some r from hr]
    rfl
  have hcount3 : is_referral_counted
      (completeRow r.user_id (bumpCount r.user_id r)).user_id ev.new_member_id
      (mark_completed r.user_id
        (⟨db.users.map (bumpCount r.user_id),
          db.referrals ++ [⟨r.user_id, ev.new_member_id, now⟩]⟩ : DB)).1 = true := by
    rw [completeRow_user_id, bumpCount_user_id]
    show (db.referrals ++
        ([⟨r.user_id, ev.new_member_id, now⟩] : List ReferralRow)).any
        (fun e => e.referrer_id == r.user_id &&
          e.referred_id == ev.new_member_id) = true
    rw [List.any_eq_true]
    exact ⟨⟨r.user_id, ev.new_member_id, now⟩,
      List.mem_append.mpr (Or.inr (by simp)), by simp⟩
  refine ⟨?_, ?_, ?_⟩
  · rw [hrun, hgrant]
  · rw [hrun, hgrant]
    dsimp only
    rw [hg3]
    show some (completeRow r.user_id (bumpCount r.user_id r)).completed = some true
    rw [hcomp3]
  · rw [hrun, hgrant]
    dsimp only
    exact handler_counted_noop cfg true true now' ev _ l
      (completeRow r.user_id (bumpCount r.user_id r)) hl hlink3 hcount3

/-- Witness for C2 on a concrete input: user 2's join through user 1's link
takes user 1 from 2 to the threshold 3; one grant is performed, `completed`
flips, and replaying the event changes nothing. -/
theorem threshold_grant_exactly_once_witness :
    rowA2.completed = false ∧ cfgA.required_invites ≤ rowA2.invited_count + 1 ∧
      (on_chat_member_updated cfgA true true "t1" evJoinA2 dbA2).2 =
        [Effect.createGroupInvite rowA2.user_id, Effect.grantMsg rowA2.user_id] ∧
      (get_user rowA2.user_id
          (on_chat_member_updated cfgA true true "t1" evJoinA2 dbA2).1).map
          UserRow.completed = some true ∧
      on_chat_member_updated cfgA true true "t2" evJoinA2
          (on_chat_member_updated cfgA true true "t1" evJoinA2 dbA2).1 =
        ((on_chat_member_updated cfgA true true "t1" evJoinA2 dbA2).1, []) :=
  ⟨by decide, by decide,
    (threshold_grant_exactly_once cfgA "t1" "t2" evJoinA2 dbA2 "https://t.me/+A"
      rowA2 rfl (Or.inl rfl) rfl rfl (by decide) (by decide) (by decide)
      (by decide) (by decide) (by decide)).1,
    (threshold_grant_exactly_once cfgA "t1" "t2" evJoinA2 dbA2 "https://t.me/+A"
      rowA2 rfl (Or.inl rfl) rfl rfl (by decide) (by decide) (by decide)
      (by decide) (by decide) (by decide)).2.1,
    (threshold_grant_exactly_once cfgA "t1" "t2" evJoinA2 dbA2 "https://t.me/+A"
      rowA2 rfl (Or.inl rfl) rfl rfl (by decide) (by decide) (by decide)
      (by decide) (by decide) (by decide)).2.2⟩

end Referalochka
